import Mathlib

/-!
Verification development for `pbalign/tools/mask_aligned_reads.py`.

The file shallowly embeds the tool: the alignment-index builder
`AlignedReadsMasker._extractAlignedReads` (source lines 94-114), the main
masking pass `AlignedReadsMasker.maskAlignedReads` (lines 34-92) and the
entry point `run` (lines 169-179).  Python exceptions are modelled with an
explicit exception kind and `Except`; the Python `dict`/`set` pair
`{movie: set(holes)}` is modelled as an insertion-ordered association list
whose values are duplicate-free lists; file-system reads are supplied by a
`World` record and writes are collected in result records.
-/

/-- Python exception kinds relevant to the tool.  `ioError` stands for the
error raised when `CmpH5Reader` cannot open a missing or unreadable file
(an `IOError` in h5py, which is neither of the two kinds the tool
catches); `indexError` and `emptyCmpH5Error` are the two kinds named in
the `except` clause at line 109; `keyError` is what
`alignedReads[i.movieInfo.Name]` raises when the key is absent. -/
inductive PyExc where
  | ioError
  | indexError
  | emptyCmpH5Error
  | keyError
deriving DecidableEq

/-- The exception kinds caught by `except (IndexError, EmptyCmpH5Error)`
at line 109 of the source. -/
def isCaught : PyExc → Bool
  | PyExc.indexError => true
  | PyExc.emptyCmpH5Error => true
  | _ => false

/-- Modelled from the spec: one sub-region of a region-table record
(`RgnH5IO` is not under `src/`): a type tag, `start`, `end` (here
`rstart`, `rend`) and `score` (spec section 3, RegionRecord). -/
structure SubRegion where
  regionType : String
  rstart : Int
  rend : Int
  score : Int
deriving DecidableEq

/-- Modelled from the spec: one region-table record, a hole number plus an
ordered list of sub-regions (spec section 3, RegionRecord).  `RgnH5IO` is
not under `src/`. -/
structure RegionRecord where
  holeNumber : Int
  regions : List SubRegion
deriving DecidableEq

/-- Tests whether a sub-region carries the reserved HQRegion type tag. -/
def isHQ (s : SubRegion) : Bool := s.regionType == "HQRegion"

/-- Overwrite `start` and `end` of a sub-region when it is the HQRegion
one, leaving its type and score, and leaving other sub-regions alone. -/
def hqSet (a b : Int) (s : SubRegion) : SubRegion :=
  if isHQ s then { s with rstart := a, rend := b } else s

/-- Modelled from the spec: `RgnH5IO.RegionTable.setHQRegion` is not under
`src/`.  Per spec sections 3 and 4.3 it overwrites the `start` and `end`
of the HQRegion sub-region, leaves the score and every other sub-region
untouched, and a record without an HQRegion sub-region is unchanged. -/
def RegionRecord.setHQRegion (r : RegionRecord) (a b : Int) : RegionRecord :=
  { r with regions := r.regions.map (hqSet a b) }

/-- The `(start, end)` pair of the first HQRegion sub-region, if any. -/
def hqOf (r : RegionRecord) : Option (Int × Int) :=
  (r.regions.find? isHQ).map (fun s => (s.rstart, s.rend))

/-- Whether a record has an HQRegion sub-region. -/
def hasHQ (r : RegionRecord) : Bool := r.regions.any isHQ

/-- The sub-regions of a record other than HQRegion ones. -/
def nonHQ (r : RegionRecord) : List SubRegion :=
  r.regions.filter (fun s => ! isHQ s)

/-- The Python dict `{movieName: set(holeNumbers)}` built by
`_extractAlignedReads`, as an insertion-ordered association list whose
values are duplicate-free hole-number lists (set semantics). -/
abbrev AlignedIndex := List (String × List Int)

/-- Dict lookup. -/
def idxLookup : AlignedIndex → String → Option (List Int)
  | [], _ => none
  | (k, v) :: rest, m => if k = m then some v else idxLookup rest m

/-- Set insertion: `set.add`, idempotent membership. -/
def setInsert (s : List Int) (h : Int) : List Int :=
  if h ∈ s then s else s ++ [h]

/-- `alignedReads.setdefault(movie, set())` at line 104: seed the key with
an empty set when absent, leave the dict unchanged when present. -/
def setdefaultEmpty (idx : AlignedIndex) (m : String) : AlignedIndex :=
  match idxLookup idx m with
  | some _ => idx
  | none => idx ++ [(m, [])]

/-- The seeding loop at lines 103-104: every movie of the movie table gets
an empty hole set. -/
def seedMovies (movies : List String) : AlignedIndex :=
  movies.foldl setdefaultEmpty []

/-- `alignedReads[m].add(h)` at line 107: `none` models the `KeyError`
raised when the movie is not a key of the dict. -/
def idxAdd : AlignedIndex → String → Int → Option AlignedIndex
  | [], _, _ => none
  | (k, v) :: rest, m, h =>
    if k = m then some ((k, setInsert v h) :: rest)
    else match idxAdd rest m h with
         | some r => some ((k, v) :: r)
         | none => none

/-- The record-iteration loop at lines 106-107, inserting every alignment
record into its movie entry.  On a `KeyError` the error carries the dict
state at raise time (the Python closure state). -/
def addAllHoles : AlignedIndex → List (String × Int) → Except (PyExc × AlignedIndex) AlignedIndex
  | idx, [] => Except.ok idx
  | idx, (m, h) :: rest =>
    match idxAdd idx m h with
    | some idx2 => addAllHoles idx2 rest
    | none => Except.error (PyExc.keyError, idx)

/-- The hole numbers of the alignment records of one movie, in record
order (used to describe the dict the iteration loop builds). -/
def holesOf : List (String × Int) → String → List Int
  | [], _ => []
  | (m1, h1) :: rest, m => if m1 = m then h1 :: holesOf rest m else holesOf rest m

/-- The data a successfully opened cmp.h5 archive exposes to the tool: the
movie table (`reader.movieInfoTable.Name`), the `(movieInfo.Name,
HoleNumber)` pair of every alignment record yielded by iteration, and
whether iteration raises an `IndexError` after the yielded records. -/
structure CmpH5Data where
  movieTable : List String
  records : List (String × Int)
  iterError : Bool
deriving DecidableEq

/-- Result of `_extractAlignedReads`: the dict, plus whether the warning
branch at lines 110-112 ran (message written to stderr and the log). -/
structure ExtractResult where
  index : AlignedIndex
  warned : Bool
deriving DecidableEq

/-- `AlignedReadsMasker._extractAlignedReads` (lines 94-114).  The
argument is the outcome of `CmpH5Reader(self.inCmpFile)`: either the
archive data or a raised exception.  The try body runs; `IndexError` and
`EmptyCmpH5Error` are caught (warning emitted, dict-so-far returned), any
other exception propagates. -/
def extractAlignedReads (cmpOpen : Except PyExc CmpH5Data) : Except PyExc ExtractResult :=
  let tryOutcome : Except (PyExc × AlignedIndex) AlignedIndex :=
    match cmpOpen with
    | Except.error e => Except.error (e, [])
    | Except.ok d =>
      match addAllHoles (seedMovies d.movieTable) d.records with
      | Except.error p => Except.error p
      | Except.ok idx =>
        if d.iterError then Except.error (PyExc.indexError, idx) else Except.ok idx
  match tryOutcome with
  | Except.ok idx => Except.ok { index := idx, warned := false }
  | Except.error (e, idx) =>
    if isCaught e then Except.ok { index := idx, warned := true } else Except.error e

/-- The membership test at lines 83-84:
`movieName in alignedReads and rt.holeNumber in alignedReads[movieName]`. -/
def idxContains (idx : AlignedIndex) (m : String) (h : Int) : Bool :=
  match idxLookup idx m with
  | some s => s.contains h
  | none => false

/-- The conditional mutation at lines 83-85: mask the record when its
movie and hole number are in the dict, otherwise pass it through. -/
def maskRecord (idx : AlignedIndex) (movieName : String) (rt : RegionRecord) : RegionRecord :=
  if idxContains idx movieName rt.holeNumber then rt.setHQRegion 0 0 else rt

/-- Modelled from the spec: the data `RgnH5Reader` (not under `src/`)
exposes for one region-table file: the declared movie name, the opaque
scan-data group and the ordered records. -/
structure RgnFile where
  movieName : String
  scanData : String
  records : List RegionRecord
deriving DecidableEq

/-- One output region-table file: the copied scan-data group (line 79) and
the forwarded records (lines 82-86). -/
structure RgnFileOut where
  scanData : String
  records : List RegionRecord
deriving DecidableEq

/-- The record loop at lines 82-86 for one input file: copy the scan-data
group and forward every record through `maskRecord` in order. -/
def processFile (idx : AlignedIndex) (f : RgnFile) : RgnFileOut :=
  { scanData := f.scanData, records := f.records.map (maskRecord idx f.movieName) }

/-- Suffix test of `rgnH5FN.endswith("rgn.h5")` at line 56 (note: the
checked suffix has no leading dot). -/
def listEndsWith (cs pat : List Char) : Bool :=
  List.take pat.length cs.reverse == pat.reverse

/-- The manifest-line check at line 56. -/
def endsWithRgnH5 (p : String) : Bool :=
  listEndsWith p.toList ( "rgn.h5".toList )

/-- Does the regex `\.[0-9].rgn\.h5` (line 53) match at the head of the
character list?  The third pattern character is an unescaped dot and
matches any character. -/
def partPatAt : List Char → Bool
  | '.' :: d :: _ :: 'r' :: 'g' :: 'n' :: '.' :: 'h' :: '5' :: _ => d.isDigit
  | _ => false

/-- `rx.search(basename)` at line 68: does `\.[0-9].rgn\.h5` match
anywhere in the string? -/
def partSearch : List Char → Bool
  | [] => false
  | c :: rest => partPatAt (c :: rest) || partSearch rest

/-- Does the split regex `.rgn\.h5` (line 69, leading unescaped dot, so
any character followed by `rgn.h5`) match at the head of the list? -/
def splitPatAt : List Char → Bool
  | _ :: 'r' :: 'g' :: 'n' :: '.' :: 'h' :: '5' :: _ => true
  | _ => false

/-- `re.split(r'.rgn\.h5', basename)[0]` at line 69: the text before the
leftmost match of the split regex (the whole string when there is no
match). -/
def splitHeadList : List Char → List Char
  | [] => []
  | c :: rest => if splitPatAt (c :: rest) then [] else c :: splitHeadList rest

/-- The `movieId` computation at lines 64-73: when the part regex matches
somewhere in the basename, the text before the first `.rgn\.h5`-split
match; otherwise the declared movie name from the file metadata. -/
def outputStem (basename declaredMovie : String) : String :=
  if partSearch basename.toList then (splitHeadList basename.toList).asString
  else declaredMovie

/-- Modelled from the spec: `os.path.basename` (Python standard library,
outside the repository): the part of the path after the last slash. -/
def baseName (s : String) : String :=
  ((s.toList.reverse.takeWhile (fun c => c ≠ '/')).reverse).asString

/-- Modelled from the spec: `os.path.splitext(p)[0]` (Python standard
library, outside the repository): the path without its final extension;
the hidden-file special case is not modelled.  Used at line 44 to derive
the output directory from the output fofn path. -/
def splitextStem (s : String) : String :=
  let cs := s.toList
  if (cs.reverse.takeWhile (fun c => c ≠ '/')).contains '.' then
    (((cs.reverse.dropWhile (fun c => c ≠ '.')).drop 1).reverse).asString
  else s

/-- Lines 75-76: `os.path.abspath(os.path.join(outDir, movieId +
".rgn.h5"))`.  The join is modelled as inserting a slash and `abspath` as
the identity (the output directory is taken as already absolute and
normalized; both functions are Python standard library, outside the
repository). -/
def planOutputPath (outDir basename declaredMovie : String) : String :=
  outDir ++ "/" ++ outputStem basename declaredMovie ++ ".rgn.h5"

/-- Follows the spec words, section 4.4 (given for comparison with the
source-derived `outputStem`): the multi-part convention is a filename
ending in a literal dot, one digit, then the literal suffix `.rgn.h5`. -/
def specPartName (cs : List Char) : Bool :=
  match cs.reverse with
  | '5' :: 'h' :: '.' :: 'n' :: 'g' :: 'r' :: '.' :: d :: '.' :: _ => d.isDigit
  | _ => false

/-- Removes a trailing `.rgn.h5` (7 characters). -/
def dropRgnSuffix (s : String) : String :=
  (s.toList.take (s.toList.length - 7)).asString

/-- Follows the spec words, section 4.4 naming rule (given for comparison
with the source-derived `outputStem`): when the filename ends in
`.<digit>.rgn.h5` the stem is the filename with `.rgn.h5` removed,
otherwise the declared movie name. -/
def specStem (basename declaredMovie : String) : String :=
  if specPartName basename.toList then dropRgnSuffix basename else declaredMovie

/-- The inputs of one run of the tool: the outcome of opening the cmp.h5
archive, the stripped lines of the input fofn (line 55), the region-table
file found at each input path, and the output fofn path. -/
structure World where
  cmpOpen : Except PyExc CmpH5Data
  fofnLines : List String
  rgnFiles : String → RgnFile
  outRgnFofnPath : String

/-- The planned output path for one manifest line of a world (lines 44 and
62-76). -/
def plannedPath (w : World) (p : String) : String :=
  planOutputPath (splitextStem w.outRgnFofnPath) (baseName p) ((w.rgnFiles p).movieName)

/-- The output file written for one manifest line: its path and its
content. -/
def plannedFilePair (idx : AlignedIndex) (w : World) (p : String) : String × RgnFileOut :=
  (plannedPath w p, processFile idx (w.rgnFiles p))

/-- Observable per-file events of the masking loop, used to state the
order in which the manifest line is appended (line 77) and the output
file is finalized (`rgnWriter.close()`, line 89). -/
inductive Ev where
  | manifestAppend (k : Nat) (path : String)
  | fileFinalized (k : Nat)
deriving DecidableEq

/-- The event trace the loop emits for a list of valid manifest lines
starting at position `k`: for each file, the manifest append (line 77)
strictly precedes the finalization (line 89). -/
def eventsFor (w : World) : Nat → List String → List Ev
  | _, [] => []
  | k, p :: rest =>
    Ev.manifestAppend k (plannedPath w p) :: Ev.fileFinalized k :: eventsFor w (k + 1) rest

/-- Mutable state of the masking loop: the strings written to the output
fofn (each one `path + "\n"`, line 77), the output files in write order,
and the emitted events. -/
structure MaskState where
  fofnWrites : List String
  files : List (String × RgnFileOut)
  events : List Ev
deriving DecidableEq

/-- The `for rgnH5FN in ...` loop at lines 55-89.  Each line is first
checked for the `rgn.h5` suffix; a failing line makes the method return 1
at once (line 59), keeping the effects of the preceding iterations; a
passing line appends its manifest line, writes its output file and emits
its events. -/
def maskLoop (idx : AlignedIndex) (w : World) : List String → Nat → MaskState → Nat × MaskState
  | [], _, st => (0, st)
  | p :: rest, k, st =>
    if endsWithRgnH5 p = true then
      maskLoop idx w rest (k + 1)
        { fofnWrites := st.fofnWrites ++ [plannedPath w p ++ "\n"],
          files := st.files ++ [plannedFilePair idx w p],
          events := st.events ++ [Ev.manifestAppend k (plannedPath w p), Ev.fileFinalized k] }
    else (1, st)

/-- Result of `maskAlignedReads` when no exception propagates: the
returned code (0 at line 92 or 1 at line 59), the warned flag of the
index build, and the written outputs. -/
structure MaskResult where
  rcode : Nat
  warned : Bool
  fofnWrites : List String
  files : List (String × RgnFileOut)
  events : List Ev
deriving DecidableEq

/-- `AlignedReadsMasker.maskAlignedReads` (lines 34-92): build the index
(line 39; an uncaught exception propagates), open the output fofn for
writing (line 49, creating the file), then run the per-line loop. -/
def maskAlignedReads (w : World) : Except PyExc MaskResult :=
  match extractAlignedReads w.cmpOpen with
  | Except.error e => Except.error e
  | Except.ok ex =>
    match maskLoop ex.index w w.fofnLines 0 { fofnWrites := [], files := [], events := [] } with
    | (rc, st) =>
      Except.ok { rcode := rc, warned := ex.warned,
                  fofnWrites := st.fofnWrites, files := st.files, events := st.events }

/-- The observable outcome of `run` (lines 169-179). -/
structure RunOutcome where
  exits : Nat
  outFofnCreated : Bool
  warned : Bool
  fofnWrites : List String
  files : List (String × RgnFileOut)
  events : List Ev
deriving DecidableEq

/-- `run` (lines 169-179): `masker.maskAlignedReads()` is called inside
`try`; its return value is discarded (line 174); an exception gives exit
code 1, otherwise `run` returns 0.  When the index build raised before
line 49, the output fofn was never opened, so it was not created. -/
def runModel (w : World) : RunOutcome :=
  match maskAlignedReads w with
  | Except.error _ =>
    { exits := 1, outFofnCreated := false, warned := false,
      fofnWrites := [], files := [], events := [] }
  | Except.ok r =>
    { exits := 0, outFofnCreated := true, warned := r.warned,
      fofnWrites := r.fofnWrites, files := r.files, events := r.events }

/-- Last-write-wins view of the written output files: the content a path
holds on disk after the run (the write of a later file to the same path
silently overwrites the earlier one). -/
def diskContents (writes : List (String × RgnFileOut)) (p : String) : Option RgnFileOut :=
  (writes.reverse.find? (fun e => e.1 == p)).map (fun e => e.2)

/-- The temporal property claim C7 asserts of the event trace: every
manifest append comes after the finalization of its file. -/
def appendAfterFinalize (evts : List Ev) : Prop :=
  ∀ i j k q, evts.get? i = some (Ev.manifestAppend k q) →
    evts.get? j = some (Ev.fileFinalized k) → j < i

/-- The output file written for one manifest line when the index is empty:
the records are copied through unmasked. -/
def unmaskedPair (w : World) (p : String) : String × RgnFileOut :=
  (plannedPath w p, { scanData := (w.rgnFiles p).scanData, records := (w.rgnFiles p).records })

/-! Concrete inputs used by witnesses and counterexamples. -/

/-- An archive that opens with no movies and no records. -/
def emptyArchive : CmpH5Data := { movieTable := [], records := [], iterError := false }

/-- A placeholder region-table file for paths the runs never open. -/
def noFile : RgnFile := { movieName := "", scanData := "", records := [] }

/-- A record whose HQRegion is already `(0, 0)`. -/
def rZeroHQ : RegionRecord :=
  { holeNumber := 1, regions := [ { regionType := "HQRegion", rstart := 0, rend := 0, score := 5 } ] }

/-- A one-record file whose record already has HQRegion `(0, 0)`. -/
def fZeroHQ : RgnFile := { movieName := "M", scanData := "sd", records := [rZeroHQ] }

/-- A record with an adapter sub-region and an HQRegion `(10, 20)`. -/
def rHQ10 : RegionRecord :=
  { holeNumber := 1,
    regions := [ { regionType := "Adapter", rstart := 3, rend := 4, score := 7 },
                 { regionType := "HQRegion", rstart := 10, rend := 20, score := 9 } ] }

/-- `rHQ10` after masking: only the HQRegion bounds change. -/
def rHQ10Masked : RegionRecord :=
  { holeNumber := 1,
    regions := [ { regionType := "Adapter", rstart := 3, rend := 4, score := 7 },
                 { regionType := "HQRegion", rstart := 0, rend := 0, score := 9 } ] }

/-- An index holding hole 1 of movie `M`. -/
def idxM1 : AlignedIndex := [("M", [1])]

/-- A one-record file for movie `M` containing `rHQ10`. -/
def fHQ10 : RgnFile := { movieName := "M", scanData := "sd", records := [rHQ10] }

/-- A run whose only manifest line has the wrong suffix. -/
def wC2 : World :=
  { cmpOpen := Except.ok emptyArchive, fofnLines := [ "foo.txt" ],
    rgnFiles := fun _ => noFile, outRgnFofnPath := "out.fofn" }

/-- A run with one valid line (which even lacks the dot of `.rgn.h5`)
followed by one invalid line. -/
def wC3 : World :=
  { cmpOpen := Except.ok emptyArchive, fofnLines := [ "x_rgn.h5", "foo.txt" ],
    rgnFiles := fun _ => fHQ10, outRgnFofnPath := "out.fofn" }

/-- A run whose archive open raises an uncaught error (missing file). -/
def wC5bad : World :=
  { cmpOpen := Except.error PyExc.ioError, fofnLines := [ "a.rgn.h5" ],
    rgnFiles := fun _ => fHQ10, outRgnFofnPath := "out.fofn" }

/-- A run whose archive open raises `EmptyCmpH5Error`. -/
def wC5 : World :=
  { cmpOpen := Except.error PyExc.emptyCmpH5Error, fofnLines := [ "a.rgn.h5" ],
    rgnFiles := fun _ => fHQ10, outRgnFofnPath := "out.fofn" }

/-- An archive with two movies in the table and duplicate records for one
of them. -/
def dC6 : CmpH5Data :=
  { movieTable := [ "M1", "M2" ], records := [("M1", 7), ("M1", 7), ("M1", 8)],
    iterError := false }

/-- The index built from `dC6`. -/
def idxC6 : AlignedIndex := [("M1", [7, 8]), ("M2", [])]

/-- A run over one valid region-table file with an empty archive. -/
def wC7 : World :=
  { cmpOpen := Except.ok emptyArchive, fofnLines := [ "a.rgn.h5" ],
    rgnFiles := fun _ => fHQ10, outRgnFofnPath := "out.fofn" }

/-- An archive whose iteration raises `IndexError` after one record. -/
def dC9 : CmpH5Data :=
  { movieTable := [ "M" ], records := [("M", 1)], iterError := true }

/-- A run over one valid region-table file with archive `dC9`. -/
def wC9 : World :=
  { cmpOpen := Except.ok dC9, fofnLines := [ "a.rgn.h5" ],
    rgnFiles := fun _ => fHQ10, outRgnFofnPath := "out.fofn" }

/-- First legacy-named file of movie `Mv`. -/
def fMvA : RgnFile := { movieName := "Mv", scanData := "sdA", records := [rHQ10] }

/-- Second legacy-named file of movie `Mv` with different content. -/
def fMvB : RgnFile := { movieName := "Mv", scanData := "sdB", records := [] }

/-- A run over two distinct legacy-named files declaring the same movie. -/
def wC10 : World :=
  { cmpOpen := Except.ok emptyArchive, fofnLines := [ "d1/a.rgn.h5", "d2/b.rgn.h5" ],
    rgnFiles := fun p => if p = "d1/a.rgn.h5" then fMvA else fMvB,
    outRgnFofnPath := "out.fofn" }

/-! Helper lemmas about lists and option maps. -/

theorem get?_map_eq {α β : Type} (f : α → β) (l : List α) (k : Nat) :
    (l.map f).get? k = (l.get? k).map f := by
  induction l generalizing k with
  | nil => cases k <;> rfl
  | cons a t ih => cases k with
    | zero => rfl
    | succ n => exact ih n

/-! Facts about the spec-modelled HQRegion mutation. -/

theorem isHQ_hqSet (a b : Int) (s : SubRegion) : isHQ (hqSet a b s) = isHQ s := by
  unfold hqSet
  split <;> rfl

theorem score_hqSet (a b : Int) (s : SubRegion) : (hqSet a b s).score = s.score := by
  unfold hqSet
  split <;> rfl

theorem hqSet_of_not_hq (a b : Int) (s : SubRegion) (h : isHQ s = false) :
    hqSet a b s = s := by
  simp [hqSet, h]

theorem hqSet_of_hq (a b : Int) (s : SubRegion) (h : isHQ s = true) :
    hqSet a b s = { s with rstart := a, rend := b } := by
  simp [hqSet, h]

theorem hqSet_hqSet (a b : Int) (s : SubRegion) :
    hqSet a b (hqSet a b s) = hqSet a b s := by
  by_cases h : isHQ s
  · rw [hqSet_of_hq a b s h]
    have h2 : isHQ { s with rstart := a, rend := b } = true := h
    rw [hqSet_of_hq a b _ h2]
  · rw [hqSet_of_not_hq a b s (by simpa using h)]
    rw [hqSet_of_not_hq a b s (by simpa using h)]

theorem map_hqSet_map_hqSet (a b : Int) (l : List SubRegion) :
    (l.map (hqSet a b)).map (hqSet a b) = l.map (hqSet a b) := by
  induction l with
  | nil => rfl
  | cons s t ih => simp [ih, hqSet_hqSet]

theorem regions_setHQRegion (r : RegionRecord) (a b : Int) :
    (r.setHQRegion a b).regions = r.regions.map (hqSet a b) := rfl

theorem holeNumber_setHQRegion (r : RegionRecord) (a b : Int) :
    (r.setHQRegion a b).holeNumber = r.holeNumber := rfl

theorem setHQRegion_setHQRegion (r : RegionRecord) (a b : Int) :
    (r.setHQRegion a b).setHQRegion a b = r.setHQRegion a b := by
  simp [RegionRecord.setHQRegion, map_hqSet_map_hqSet, hqSet_hqSet]

theorem find?_isHQ_map_hqSet (a b : Int) (l : List SubRegion) :
    (l.map (hqSet a b)).find? isHQ = (l.find? isHQ).map (hqSet a b) := by
  induction l with
  | nil => rfl
  | cons s t ih =>
    by_cases h : isHQ s
    · rw [List.map_cons, List.find?_cons_of_pos _ (by rw [isHQ_hqSet]; exact h),
        List.find?_cons_of_pos _ h]
      rfl
    · rw [List.map_cons,
        List.find?_cons_of_neg _ (by rw [isHQ_hqSet]; simpa using h),
        List.find?_cons_of_neg _ (by simpa using h)]
      exact ih

theorem find?_isHQ_of_hasHQ (l : List SubRegion) (h : l.any isHQ = true) :
    ∃ s, l.find? isHQ = some s ∧ isHQ s = true := by
  induction l with
  | nil => simp at h
  | cons s t ih =>
    by_cases hs : isHQ s
    · exact ⟨s, List.find?_cons_of_pos _ hs, hs⟩
    · have ht : t.any isHQ = true := by
        simp [List.any_cons, hs] at h
        simpa using h
      obtain ⟨x, hx, hhq⟩ := ih ht
      exact ⟨x, by rw [List.find?_cons_of_neg _ (by simpa using hs)]; exact hx, hhq⟩

theorem map_hqSet_of_all_not (a b : Int) (l : List SubRegion) (h : l.any isHQ = false) :
    l.map (hqSet a b) = l := by
  induction l with
  | nil => rfl
  | cons s t ih =>
    rw [List.any_cons] at h
    have hs : isHQ s = false := by
      cases hs2 : isHQ s
      · rfl
      · rw [hs2, Bool.true_or] at h
        exact Bool.noConfusion h
    have ht : t.any isHQ = false := by
      rw [hs, Bool.false_or] at h
      exact h
    rw [List.map_cons, hqSet_of_not_hq a b s hs, ih ht]

theorem setHQRegion_of_not_hasHQ (r : RegionRecord) (a b : Int) (h : hasHQ r = false) :
    r.setHQRegion a b = r := by
  unfold RegionRecord.setHQRegion
  rw [map_hqSet_of_all_not a b r.regions h]

theorem hqOf_setHQRegion (r : RegionRecord) (a b : Int) (h : hasHQ r = true) :
    hqOf (r.setHQRegion a b) = some (a, b) := by
  obtain ⟨s, hfind, hhq⟩ := find?_isHQ_of_hasHQ r.regions h
  rw [hqOf, regions_setHQRegion, find?_isHQ_map_hqSet, hfind]
  simp [hqSet_of_hq a b s hhq]

theorem filter_nonHQ_map_hqSet (a b : Int) (l : List SubRegion) :
    (l.map (hqSet a b)).filter (fun s => ! isHQ s) = l.filter (fun s => ! isHQ s) := by
  induction l with
  | nil => rfl
  | cons s t ih =>
    by_cases h : isHQ s = true
    · rw [List.map_cons, List.filter_cons, List.filter_cons]
      simp only [isHQ_hqSet, h]
      simpa using ih
    · have hf : isHQ s = false := by simpa using h
      rw [List.map_cons, hqSet_of_not_hq a b s hf, List.filter_cons, List.filter_cons, hf]
      simp only [Bool.not_false, if_true]
      rw [ih]

theorem nonHQ_setHQRegion (r : RegionRecord) (a b : Int) :
    nonHQ (r.setHQRegion a b) = nonHQ r := by
  unfold nonHQ
  rw [regions_setHQRegion]
  exact filter_nonHQ_map_hqSet a b r.regions

/-! Facts about the movie dict built by the index builder. -/

theorem mem_setInsert (s : List Int) (h x : Int) : x ∈ setInsert s h ↔ x ∈ s ∨ x = h := by
  unfold setInsert
  by_cases hh : h ∈ s
  · rw [if_pos hh]
    constructor
    · exact Or.inl
    · rintro (hx | hx)
      · exact hx
      · rw [hx]
        exact hh
  · rw [if_neg hh]
    simp [List.mem_append]

theorem nodup_setInsert (s : List Int) (h : Int) (hs : s.Nodup) : (setInsert s h).Nodup := by
  unfold setInsert
  by_cases hh : h ∈ s
  · rw [if_pos hh]
    exact hs
  · rw [if_neg hh]
    simp [List.nodup_append, hs, hh]

theorem mem_foldl_setInsert (l s : List Int) (x : Int) :
    x ∈ List.foldl setInsert s l ↔ x ∈ s ∨ x ∈ l := by
  induction l generalizing s with
  | nil => simp
  | cons h t ih =>
    rw [List.foldl_cons, ih, mem_setInsert]
    simp [or_assoc]

theorem nodup_foldl_setInsert (l s : List Int) (hs : s.Nodup) :
    (List.foldl setInsert s l).Nodup := by
  induction l generalizing s with
  | nil => exact hs
  | cons h t ih => exact ih _ (nodup_setInsert s h hs)

theorem mem_holesOf (recs : List (String × Int)) (m : String) (x : Int) :
    x ∈ holesOf recs m ↔ (m, x) ∈ recs := by
  induction recs with
  | nil => simp [holesOf]
  | cons r rest ih =>
    obtain ⟨m1, h1⟩ := r
    by_cases hm : m1 = m
    · subst hm
      simp [holesOf, ih, List.mem_cons, Prod.mk.injEq]
    · have hm2 : ¬(m = m1 ∧ x = h1) := fun hc => hm hc.1.symm
      simp [holesOf, hm, ih, List.mem_cons, Prod.mk.injEq, hm2]

theorem idxLookup_setdefault_ne (idx : AlignedIndex) (x m : String) (h : x ≠ m) :
    idxLookup (setdefaultEmpty idx x) m = idxLookup idx m := by
  unfold setdefaultEmpty
  cases hx : idxLookup idx x with
  | some s => rfl
  | none =>
    induction idx with
    | nil => simp [idxLookup, h]
    | cons kv rest ih =>
      obtain ⟨k, v⟩ := kv
      by_cases hk : k = m
      · simp [idxLookup, hk]
      · rw [idxLookup] at hx
        by_cases hkx : k = x
        · rw [if_pos hkx] at hx
          exact absurd hx (by simp)
        · rw [if_neg hkx] at hx
          simp only [List.cons_append, idxLookup, if_neg hk]
          exact ih hx

theorem idxLookup_setdefault_self (idx : AlignedIndex) (x : String) :
    idxLookup (setdefaultEmpty idx x) x = some ((idxLookup idx x).getD []) := by
  unfold setdefaultEmpty
  cases hx : idxLookup idx x with
  | some s => rw [hx]; rfl
  | none =>
    induction idx with
    | nil => simp [idxLookup]
    | cons kv rest ih =>
      obtain ⟨k, v⟩ := kv
      rw [idxLookup] at hx
      by_cases hk : k = x
      · rw [if_pos hk] at hx
        exact absurd hx (by simp)
      · rw [if_neg hk] at hx
        simp only [List.cons_append, idxLookup, if_neg hk]
        exact ih hx

theorem idxLookup_seed_aux (L : List String) (acc : AlignedIndex) (m : String) :
    idxLookup (List.foldl setdefaultEmpty acc L) m =
      if (idxLookup acc m).isSome then idxLookup acc m
      else if m ∈ L then some [] else none := by
  induction L generalizing acc with
  | nil => cases h : idxLookup acc m <;> simp [h]
  | cons x L ih =>
    rw [List.foldl_cons, ih]
    by_cases hx : x = m
    · subst hx
      rw [idxLookup_setdefault_self acc x]
      cases h : idxLookup acc x <;> simp [h]
    · rw [idxLookup_setdefault_ne acc x m hx]
      have hmx : ¬ m = x := fun hc => hx hc.symm
      have hmem : (m ∈ x :: L) = (m ∈ L) := by
        simp [List.mem_cons, hmx]
      cases h : idxLookup acc m <;> simp [h, hmem]

theorem idxLookup_seedMovies (L : List String) (m : String) :
    idxLookup (seedMovies L) m = if m ∈ L then some [] else none := by
  have h := idxLookup_seed_aux L [] m
  simpa [seedMovies, idxLookup] using h

theorem idxAdd_eq_some (idx : AlignedIndex) (m : String) (h : Int) (idx2 : AlignedIndex)
    (hadd : idxAdd idx m h = some idx2) (m' : String) :
    idxLookup idx2 m' =
      if m' = m then (idxLookup idx m').map (fun s => setInsert s h)
      else idxLookup idx m' := by
  induction idx generalizing idx2 with
  | nil => exact absurd hadd (by simp [idxAdd])
  | cons kv rest ih =>
    obtain ⟨k, v⟩ := kv
    rw [idxAdd] at hadd
    by_cases hk : k = m
    · rw [if_pos hk] at hadd
      have h2 : idx2 = (k, setInsert v h) :: rest := by
        have := Option.some.inj hadd
        exact this.symm
      subst h2
      by_cases hm' : m' = m
      · subst hm'
        rw [idxLookup, idxLookup, if_pos hk, if_pos hk, if_pos rfl]
        rfl
      · have hk' : ¬ k = m' := fun hc => hm' (hc ▸ hk)
        rw [idxLookup, idxLookup, if_neg hk', if_neg hk', if_neg hm']
    · rw [if_neg hk] at hadd
      cases hr : idxAdd rest m h with
      | none =>
        rw [hr] at hadd
        exact absurd hadd (by simp)
      | some r =>
        rw [hr] at hadd
        have h2 : idx2 = (k, v) :: r := (Option.some.inj hadd).symm
        subst h2
        by_cases hkm' : k = m'
        · have hm' : ¬ m' = m := fun hc => hk (hkm'.symm ▸ hc)
          rw [idxLookup, idxLookup, if_pos hkm', if_pos hkm', if_neg hm']
        · rw [idxLookup, idxLookup, if_neg hkm', if_neg hkm', ih r hr]

theorem addAllHoles_lookup (recs : List (String × Int)) (idx idx2 : AlignedIndex)
    (hok : addAllHoles idx recs = Except.ok idx2) (m : String) :
    idxLookup idx2 m =
      (idxLookup idx m).map (fun s => List.foldl setInsert s (holesOf recs m)) := by
  induction recs generalizing idx with
  | nil =>
    rw [addAllHoles] at hok
    have h2 : idx = idx2 := by
      have := hok
      simp at this
      exact this
    subst h2
    cases h : idxLookup idx m <;> simp [h, holesOf]
  | cons r rest ih =>
    obtain ⟨m1, h1⟩ := r
    rw [addAllHoles] at hok
    cases hadd : idxAdd idx m1 h1 with
    | none =>
      rw [hadd] at hok
      exact absurd hok (by simp)
    | some mid =>
      rw [hadd] at hok
      have hmid := idxAdd_eq_some idx m1 h1 mid hadd m
      rw [ih mid hok, hmid]
      by_cases hm : m = m1
      · subst hm
        rw [holesOf, if_pos rfl]
        cases h : idxLookup idx m <;> simp [h]
      · rw [holesOf, if_neg (fun hc : m1 = m => hm hc.symm), if_neg hm]

theorem extract_ok_of_build (d : CmpH5Data) (idx : AlignedIndex)
    (hbuild : addAllHoles (seedMovies d.movieTable) d.records = Except.ok idx) :
    extractAlignedReads (Except.ok d) = Except.ok { index := idx, warned := d.iterError } := by
  cases hit : d.iterError
  · simp [extractAlignedReads, hbuild, hit]
  · simp [extractAlignedReads, hbuild, hit, isCaught]

/-! Facts about the per-file masking pass and the main loop. -/

theorem maskRecord_nil (m : String) (r : RegionRecord) : maskRecord [] m r = r := by
  simp [maskRecord, idxContains, idxLookup]

theorem map_maskRecord_nil (m : String) (l : List RegionRecord) :
    l.map (maskRecord [] m) = l := by
  induction l with
  | nil => rfl
  | cons r t ih => rw [List.map_cons, maskRecord_nil, ih]

theorem processFile_nil (f : RgnFile) :
    processFile [] f = { scanData := f.scanData, records := f.records } := by
  unfold processFile
  rw [map_maskRecord_nil]

theorem maskLoop_valid (idx : AlignedIndex) (w : World) (paths : List String) :
    ∀ (k : Nat) (st : MaskState), (∀ p ∈ paths, endsWithRgnH5 p = true) →
      maskLoop idx w paths k st =
        (0, { fofnWrites := st.fofnWrites ++ paths.map (fun p => plannedPath w p ++ "\n"),
              files := st.files ++ paths.map (plannedFilePair idx w),
              events := st.events ++ eventsFor w k paths }) := by
  induction paths with
  | nil =>
    intro k st _
    simp [maskLoop, eventsFor]
  | cons p rest ih =>
    intro k st h
    have hp : endsWithRgnH5 p = true := h p (List.mem_cons_self p rest)
    simp only [maskLoop]
    rw [if_pos hp, ih (k + 1) _ (fun q hq => h q (List.mem_cons_of_mem p hq))]
    simp [eventsFor, List.append_assoc]

theorem maskLoop_invalid (idx : AlignedIndex) (w : World) (good : List String) (bad : String)
    (rest : List String) :
    ∀ (k : Nat) (st : MaskState), (∀ p ∈ good, endsWithRgnH5 p = true) →
      endsWithRgnH5 bad = false →
      maskLoop idx w (good ++ bad :: rest) k st =
        (1, { fofnWrites := st.fofnWrites ++ good.map (fun p => plannedPath w p ++ "\n"),
              files := st.files ++ good.map (plannedFilePair idx w),
              events := st.events ++ eventsFor w k good }) := by
  induction good with
  | nil =>
    intro k st _ hb
    simp only [List.nil_append, maskLoop]
    rw [if_neg (by simp [hb])]
    simp [eventsFor]
  | cons p g ih =>
    intro k st h hb
    have hp : endsWithRgnH5 p = true := h p (List.mem_cons_self p g)
    simp only [List.cons_append, maskLoop]
    rw [if_pos hp]
    simp only [List.append_eq]
    rw [ih (k + 1) _ (fun q hq => h q (List.mem_cons_of_mem p hq)) hb]
    simp [eventsFor, List.append_assoc]

theorem maskAlignedReads_valid (w : World) (ex : ExtractResult)
    (hex : extractAlignedReads w.cmpOpen = Except.ok ex)
    (hv : ∀ p ∈ w.fofnLines, endsWithRgnH5 p = true) :
    maskAlignedReads w = Except.ok
      { rcode := 0, warned := ex.warned,
        fofnWrites := w.fofnLines.map (fun p => plannedPath w p ++ "\n"),
        files := w.fofnLines.map (plannedFilePair ex.index w),
        events := eventsFor w 0 w.fofnLines } := by
  have hml := maskLoop_valid ex.index w w.fofnLines 0 { fofnWrites := [], files := [], events := [] } hv
  unfold maskAlignedReads
  simp only [hex]
  rw [hml]
  simp

theorem maskAlignedReads_invalid (w : World) (ex : ExtractResult) (good : List String)
    (bad : String) (rest : List String)
    (hex : extractAlignedReads w.cmpOpen = Except.ok ex)
    (hlines : w.fofnLines = good ++ bad :: rest)
    (hg : ∀ p ∈ good, endsWithRgnH5 p = true)
    (hb : endsWithRgnH5 bad = false) :
    maskAlignedReads w = Except.ok
      { rcode := 1, warned := ex.warned,
        fofnWrites := good.map (fun p => plannedPath w p ++ "\n"),
        files := good.map (plannedFilePair ex.index w),
        events := eventsFor w 0 good } := by
  have hml := maskLoop_invalid ex.index w good bad rest 0 { fofnWrites := [], files := [], events := [] } hg hb
  unfold maskAlignedReads
  simp only [hex, hlines]
  rw [hml]
  simp

theorem runModel_of_ok (w : World) (r : MaskResult) (h : maskAlignedReads w = Except.ok r) :
    runModel w =
      { exits := 0, outFofnCreated := true, warned := r.warned,
        fofnWrites := r.fofnWrites, files := r.files, events := r.events } := by
  unfold runModel
  rw [h]

theorem runModel_of_error (w : World) (e : PyExc) (h : maskAlignedReads w = Except.error e) :
    runModel w =
      { exits := 1, outFofnCreated := false, warned := false,
        fofnWrites := [], files := [], events := [] } := by
  unfold runModel
  rw [h]

theorem holeNumber_maskRecord (idx : AlignedIndex) (m : String) (r : RegionRecord) :
    (maskRecord idx m r).holeNumber = r.holeNumber := by
  unfold maskRecord
  split
  · exact holeNumber_setHQRegion r 0 0
  · rfl

theorem map_plannedFilePair_nil (w : World) (l : List String) :
    l.map (plannedFilePair [] w) = l.map (unmaskedPair w) := by
  induction l with
  | nil => rfl
  | cons p t ih =>
    rw [List.map_cons, List.map_cons, ih]
    have hh : plannedFilePair [] w p = unmaskedPair w p := by
      unfold plannedFilePair unmaskedPair
      rw [processFile_nil]
    rw [hh]

theorem map_fst_plannedFilePair (idx : AlignedIndex) (w : World) (l : List String) :
    (l.map (plannedFilePair idx w)).map Prod.fst = l.map (plannedPath w) := by
  induction l with
  | nil => rfl
  | cons p t ih =>
    rw [List.map_cons, List.map_cons, List.map_cons, ih]
    rfl

/-! The claims. -/

/-- Claim C1, amended.  The masking pass over one region-table file is a
pointwise transform: the output has exactly as many records as the input,
in the same order with the same hole numbers; for every record, if its
`(movieName, holeNumber)` is in the AlignmentIndex and it has an HQRegion
sub-region then the output HQRegion equals `(0, 0)`, otherwise the output
HQRegion equals the input HQRegion; and all other sub-regions are
identical between input and output.  (The claim stated this as an `iff`,
which fails when an unmatched record already carries HQRegion `(0, 0)`.) -/
theorem C1_mask_transform (idx : AlignedIndex) (f : RgnFile) :
    (processFile idx f).records.length = f.records.length
    ∧ (∀ k : Nat, ((processFile idx f).records.get? k).map RegionRecord.holeNumber
        = (f.records.get? k).map RegionRecord.holeNumber)
    ∧ (∀ (k : Nat) (r r' : RegionRecord), f.records.get? k = some r →
        (processFile idx f).records.get? k = some r' →
        ((idxContains idx f.movieName r.holeNumber = true ∧ hasHQ r = true) →
            hqOf r' = some (0, 0))
        ∧ (¬ (idxContains idx f.movieName r.holeNumber = true ∧ hasHQ r = true) →
            hqOf r' = hqOf r)
        ∧ nonHQ r' = nonHQ r) := by
  refine ⟨?_, ?_, ?_⟩
  · unfold processFile
    exact List.length_map f.records (maskRecord idx f.movieName)
  · intro k
    unfold processFile
    rw [get?_map_eq]
    cases h : f.records.get? k <;> simp [h, holeNumber_maskRecord]
  · intro k r r' hk hk'
    have hr' : r' = maskRecord idx f.movieName r := by
      unfold processFile at hk'
      rw [get?_map_eq, hk] at hk'
      exact (Option.some.inj hk').symm
    subst hr'
    refine ⟨?_, ?_, ?_⟩
    · rintro ⟨hc, hq⟩
      unfold maskRecord
      rw [if_pos hc]
      exact hqOf_setHQRegion r 0 0 hq
    · intro hnc
      unfold maskRecord
      by_cases hc : idxContains idx f.movieName r.holeNumber = true
      · have hq : hasHQ r = false := by
          cases hq2 : hasHQ r
          · rfl
          · exact absurd ⟨hc, hq2⟩ hnc
        rw [if_pos hc, setHQRegion_of_not_hasHQ r 0 0 hq]
      · rw [if_neg hc]
    · unfold maskRecord
      by_cases hc : idxContains idx f.movieName r.holeNumber = true
      · rw [if_pos hc]
        exact nonHQ_setHQRegion r 0 0
      · rw [if_neg hc]

/-- Witness for C1 at a concrete index and file: hole 1 of movie `M` is
aligned, the record is masked to HQRegion `(0, 0)` and its other
sub-region survives unchanged. -/
theorem C1_mask_transform_witness :
    (processFile idxM1 fHQ10).records.length = fHQ10.records.length
    ∧ hqOf rHQ10Masked = some (0, 0)
    ∧ nonHQ rHQ10Masked = nonHQ rHQ10 := by
  refine ⟨(C1_mask_transform idxM1 fHQ10).1, ?_, ?_⟩
  · exact ((C1_mask_transform idxM1 fHQ10).2.2 0 rHQ10 rHQ10Masked rfl rfl).1 (by decide)
  · exact ((C1_mask_transform idxM1 fHQ10).2.2 0 rHQ10 rHQ10Masked rfl rfl).2.2

/-- Counterexample to C1 as stated: a record whose input HQRegion is
already `(0, 0)` and whose key is absent from the index passes through
unchanged, so the output HQRegion equals `(0, 0)` although the record was
not selected — the claimed `iff` fails. -/
theorem C1_counterexample :
    (processFile [] fZeroHQ).records = [rZeroHQ]
    ∧ ¬ (hqOf rZeroHQ = some (0, 0) ↔
        (idxContains [] fZeroHQ.movieName rZeroHQ.holeNumber = true ∧ hasHQ rZeroHQ = true)) := by
  constructor
  · rfl
  · decide

/-- Claim C2, code behavior at the failing input: for the manifest
consisting of the single line `foo.txt`, `maskAlignedReads` returns 1,
but `run` discards that value and returns 0, and the output manifest file
was created (opened for writing) before validation. -/
theorem C2_code_behavior :
    maskAlignedReads wC2 = Except.ok
      { rcode := 1, warned := false, fofnWrites := [], files := [], events := [] }
    ∧ (runModel wC2).exits = 0
    ∧ (runModel wC2).outFofnCreated = true
    ∧ (runModel wC2).fofnWrites = [] := by
  exact ⟨rfl, rfl, rfl, rfl⟩

/-- Counterexample to C3 as stated: with manifest lines `x_rgn.h5` (which
does not end in `.rgn.h5` yet is accepted) and `foo.txt`, the run writes
the first file and its manifest line before failing on the second, and
the process still exits 0. -/
theorem C3_counterexample :
    (runModel wC3).exits = 0
    ∧ (runModel wC3).fofnWrites = [ "out/M.rgn.h5\n" ]
    ∧ (runModel wC3).files = [("out/M.rgn.h5", { scanData := "sd", records := [rHQ10] })]
    ∧ endsWithRgnH5 "x_rgn.h5" = true := by
  exact ⟨rfl, rfl, rfl, rfl⟩

/-- Claim C3, amended.  Each manifest line is checked for the suffix
`rgn.h5` (no leading dot) only when its turn comes: when a line fails,
the masking routine returns 1 at once, but the output files and manifest
lines of all preceding valid lines have already been written, the output
manifest file itself was created before any validation, and `run` still
exits 0 because it discards the inner return value. -/
theorem C3_deferred_validation (w : World) (ex : ExtractResult) (good : List String)
    (bad : String) (rest : List String)
    (hex : extractAlignedReads w.cmpOpen = Except.ok ex)
    (hlines : w.fofnLines = good ++ bad :: rest)
    (hg : ∀ p ∈ good, endsWithRgnH5 p = true)
    (hb : endsWithRgnH5 bad = false) :
    maskAlignedReads w = Except.ok
      { rcode := 1, warned := ex.warned,
        fofnWrites := good.map (fun p => plannedPath w p ++ "\n"),
        files := good.map (plannedFilePair ex.index w),
        events := eventsFor w 0 good }
    ∧ (runModel w).exits = 0
    ∧ (runModel w).outFofnCreated = true := by
  have hm := maskAlignedReads_invalid w ex good bad rest hex hlines hg hb
  refine ⟨hm, ?_, ?_⟩
  · rw [runModel_of_ok w _ hm]
  · rw [runModel_of_ok w _ hm]

/-- Witness for C3 at the concrete two-line manifest of `wC3`. -/
theorem C3_deferred_validation_witness :
    endsWithRgnH5 "foo.txt" = false
    ∧ maskAlignedReads wC3 = Except.ok
      { rcode := 1, warned := false, fofnWrites := [ "out/M.rgn.h5\n" ],
        files := [("out/M.rgn.h5", { scanData := "sd", records := [rHQ10] })],
        events := [Ev.manifestAppend 0 "out/M.rgn.h5", Ev.fileFinalized 0] }
    ∧ (runModel wC3).exits = 0 := by
  refine ⟨by decide, ?_, ?_⟩
  · exact (C3_deferred_validation wC3 { index := [], warned := false } [ "x_rgn.h5" ]
      "foo.txt" [] rfl rfl (by decide) (by decide)).1
  · exact (C3_deferred_validation wC3 { index := [], warned := false } [ "x_rgn.h5" ]
      "foo.txt" [] rfl rfl (by decide) (by decide)).2.1

/-- Claim C4, code behavior at the failing input: the unescaped dots make
the source regex treat basename `x.3qrgn.h5` (which does not end in
`.<digit>.rgn.h5`) as multi-part and derive stem `x.3`, while the rule the
claim states (and the code comment intends) yields the declared movie
name `M1`; on the conventional name both agree. -/
theorem C4_regex_behavior :
    outputStem "x.3qrgn.h5" "M1" = "x.3"
    ∧ specStem "x.3qrgn.h5" "M1" = "M1"
    ∧ endsWithRgnH5 "x.3qrgn.h5" = true
    ∧ outputStem "m1_s1_p0.3.rgn.h5" "M1" = "m1_s1_p0.3"
    ∧ specStem "m1_s1_p0.3.rgn.h5" "M1" = "m1_s1_p0.3" := by
  decide

/-- Counterexample to C5 as stated: when the archive open raises an error
other than `IndexError`/`EmptyCmpH5Error` (a missing file raises an
IOError), the exception propagates, the run exits 1 and produces no
output at all — it does not degrade to an empty index. -/
theorem C5_counterexample :
    (runModel wC5bad).exits = 1
    ∧ (runModel wC5bad).files = []
    ∧ (runModel wC5bad).outFofnCreated = false
    ∧ (runModel wC5bad).warned = false := by
  exact ⟨rfl, rfl, rfl, rfl⟩

/-- Claim C5, amended.  When the archive open raises a caught error
(`EmptyCmpH5Error` for zero usable records, or `IndexError`), the index
build degrades to the empty index with a warning, and the run continues
and succeeds with every record of every region table copied through
unmasked. -/
theorem C5_graceful_empty (w : World) (e : PyExc)
    (hopen : w.cmpOpen = Except.error e) (hc : isCaught e = true)
    (hv : ∀ p ∈ w.fofnLines, endsWithRgnH5 p = true) :
    extractAlignedReads w.cmpOpen = Except.ok { index := [], warned := true }
    ∧ runModel w =
      { exits := 0, outFofnCreated := true, warned := true,
        fofnWrites := w.fofnLines.map (fun p => plannedPath w p ++ "\n"),
        files := w.fofnLines.map (unmaskedPair w),
        events := eventsFor w 0 w.fofnLines } := by
  have hex : extractAlignedReads w.cmpOpen = Except.ok { index := [], warned := true } := by
    rw [hopen]
    unfold extractAlignedReads
    simp [hc]
  refine ⟨hex, ?_⟩
  have hm := maskAlignedReads_valid w { index := [], warned := true } hex hv
  rw [runModel_of_ok w _ hm]
  simp [map_plannedFilePair_nil]

/-- Witness for C5 at the concrete world `wC5` whose archive raises
`EmptyCmpH5Error`: the single record comes out unmasked. -/
theorem C5_graceful_empty_witness :
    isCaught PyExc.emptyCmpH5Error = true
    ∧ runModel wC5 =
      { exits := 0, outFofnCreated := true, warned := true, fofnWrites := [ "out/M.rgn.h5\n" ],
        files := [("out/M.rgn.h5", { scanData := "sd", records := [rHQ10] })],
        events := [Ev.manifestAppend 0 "out/M.rgn.h5", Ev.fileFinalized 0] } := by
  refine ⟨rfl, ?_⟩
  exact (C5_graceful_empty wC5 PyExc.emptyCmpH5Error rfl rfl (by decide)).2

/-- Claim C6.  Whenever the record-insertion loop succeeds, every movie of
the archive movie table is a key of the returned dict (even with zero
aligned reads), and every value is the duplicate-free set of the hole
numbers of that movie, with set membership exactly matching the archive
records. -/
theorem C6_index_complete (d : CmpH5Data) (idx : AlignedIndex)
    (hbuild : addAllHoles (seedMovies d.movieTable) d.records = Except.ok idx) :
    extractAlignedReads (Except.ok d) = Except.ok { index := idx, warned := d.iterError }
    ∧ (∀ m : String, (idxLookup idx m).isSome = true ↔ m ∈ d.movieTable)
    ∧ (∀ (m : String) (s : List Int), idxLookup idx m = some s →
        (∀ h : Int, h ∈ s ↔ (m, h) ∈ d.records) ∧ s.Nodup) := by
  refine ⟨extract_ok_of_build d idx hbuild, ?_, ?_⟩
  · intro m
    rw [addAllHoles_lookup d.records _ idx hbuild m, idxLookup_seedMovies]
    by_cases hm : m ∈ d.movieTable <;> simp [hm]
  · intro m s hs
    rw [addAllHoles_lookup d.records _ idx hbuild m, idxLookup_seedMovies] at hs
    by_cases hm : m ∈ d.movieTable
    · rw [if_pos hm] at hs
      have hval : List.foldl setInsert [] (holesOf d.records m) = s := by
        simpa using hs
      constructor
      · intro h
        rw [← hval, mem_foldl_setInsert, mem_holesOf]
        simp
      · rw [← hval]
        exact nodup_foldl_setInsert _ _ List.nodup_nil
    · rw [if_neg hm] at hs
      exact absurd hs (by simp)

/-- Witness for C6 at the concrete archive `dC6` with a movie that has no
aligned reads and a duplicated record. -/
theorem C6_index_complete_witness :
    addAllHoles (seedMovies dC6.movieTable) dC6.records = Except.ok idxC6
    ∧ extractAlignedReads (Except.ok dC6) = Except.ok { index := idxC6, warned := false }
    ∧ ((idxLookup idxC6 "M2").isSome = true ↔ "M2" ∈ dC6.movieTable)
    ∧ ((7 : Int) ∈ [(7 : Int), 8] ↔ ("M2", (7 : Int)) ∈ dC6.records ∨ ("M1", (7 : Int)) ∈ dC6.records) := by
  have hb : addAllHoles (seedMovies dC6.movieTable) dC6.records = Except.ok idxC6 := rfl
  refine ⟨hb, (C6_index_complete dC6 idxC6 hb).1, (C6_index_complete dC6 idxC6 hb).2.1 "M2", ?_⟩
  have h7 := ((C6_index_complete dC6 idxC6 hb).2.2 "M1" [7, 8] rfl).1 7
  constructor
  · intro hmem
    exact Or.inr (h7.mp hmem)
  · rintro (hbad | hgood)
    · exact absurd hbad (by decide)
    · exact h7.mpr hgood

/-- Claim C7, amended.  For a run whose lines are all valid, the output
manifest holds one `path + newline` string per input line in input order
and the output files appear in the same order, but in the event trace of
each file the manifest append (line 77) precedes the finalization of the
output file (line 89) — the manifest line is written before the file is
even created, not after it completes. -/
theorem C7_manifest_order (w : World) (ex : ExtractResult)
    (hex : extractAlignedReads w.cmpOpen = Except.ok ex)
    (hv : ∀ p ∈ w.fofnLines, endsWithRgnH5 p = true) :
    (runModel w).fofnWrites = w.fofnLines.map (fun p => plannedPath w p ++ "\n")
    ∧ (runModel w).files.map Prod.fst = w.fofnLines.map (plannedPath w)
    ∧ (runModel w).events = eventsFor w 0 w.fofnLines
    ∧ (runModel w).exits = 0 := by
  have hm := maskAlignedReads_valid w ex hex hv
  rw [runModel_of_ok w _ hm]
  exact ⟨rfl, map_fst_plannedFilePair ex.index w w.fofnLines, rfl, rfl⟩

/-- Witness for C7 at the concrete one-file run `wC7`. -/
theorem C7_manifest_order_witness :
    (runModel wC7).fofnWrites = [ "out/M.rgn.h5\n" ]
    ∧ (runModel wC7).files.map Prod.fst = [ "out/M.rgn.h5" ]
    ∧ (runModel wC7).events = [Ev.manifestAppend 0 "out/M.rgn.h5", Ev.fileFinalized 0]
    ∧ (runModel wC7).exits = 0 := by
  exact C7_manifest_order wC7 { index := [], warned := false } rfl (by decide)

/-- Counterexample to C7 as stated: in the event trace of the run `wC7`
the manifest append of file 0 occurs at position 0 and its finalization
at position 1, so the append does not come after the file completes. -/
theorem C7_counterexample : ¬ appendAfterFinalize (runModel wC7).events := by
  intro hA
  have h := hA 0 1 0 "out/M.rgn.h5" rfl rfl
  exact absurd h (by decide)

/-- Claim C8.  The mask mutation `setHQRegion(0, 0)` is idempotent, keeps
the hole number, keeps every sub-region score, leaves non-HQRegion
sub-regions untouched, and rewrites only the start and end of HQRegion
sub-regions to zero. -/
theorem C8_mask_idempotent (r : RegionRecord) :
    (r.setHQRegion 0 0).setHQRegion 0 0 = r.setHQRegion 0 0
    ∧ (r.setHQRegion 0 0).holeNumber = r.holeNumber
    ∧ (∀ k : Nat, ((r.setHQRegion 0 0).regions.get? k).map SubRegion.score
        = (r.regions.get? k).map SubRegion.score)
    ∧ (∀ (k : Nat) (s : SubRegion), r.regions.get? k = some s → isHQ s = false →
        (r.setHQRegion 0 0).regions.get? k = some s)
    ∧ (∀ (k : Nat) (s : SubRegion), r.regions.get? k = some s → isHQ s = true →
        (r.setHQRegion 0 0).regions.get? k = some { s with rstart := 0, rend := 0 }) := by
  refine ⟨setHQRegion_setHQRegion r 0 0, holeNumber_setHQRegion r 0 0, ?_, ?_, ?_⟩
  · intro k
    rw [regions_setHQRegion, get?_map_eq]
    cases h : r.regions.get? k <;> simp [h, score_hqSet]
  · intro k s hk hs
    rw [regions_setHQRegion, get?_map_eq, hk]
    simp [hqSet_of_not_hq 0 0 s hs]
  · intro k s hk hs
    rw [regions_setHQRegion, get?_map_eq, hk]
    simp [hqSet_of_hq 0 0 s hs]

/-- Witness for C8 at the concrete record `rHQ10`. -/
theorem C8_mask_idempotent_witness :
    (rHQ10.setHQRegion 0 0).setHQRegion 0 0 = rHQ10.setHQRegion 0 0
    ∧ ((rHQ10.setHQRegion 0 0).regions.get? 1).map SubRegion.score
      = (rHQ10.regions.get? 1).map SubRegion.score := by
  exact ⟨(C8_mask_idempotent rHQ10).1, (C8_mask_idempotent rHQ10).2.2.1 1⟩

/-- Claim C9.  When iteration of the archive raises an `IndexError` after
records were already inserted, the exception is swallowed with the
warning message, the partially built dict is returned and used for
masking, and the run neither fails nor falls back to an empty index. -/
theorem C9_swallowed_index_error (w : World) (d : CmpH5Data) (idx : AlignedIndex)
    (hopen : w.cmpOpen = Except.ok d) (herr : d.iterError = true)
    (hbuild : addAllHoles (seedMovies d.movieTable) d.records = Except.ok idx)
    (hv : ∀ p ∈ w.fofnLines, endsWithRgnH5 p = true) :
    extractAlignedReads w.cmpOpen = Except.ok { index := idx, warned := true }
    ∧ maskAlignedReads w = Except.ok
      { rcode := 0, warned := true,
        fofnWrites := w.fofnLines.map (fun p => plannedPath w p ++ "\n"),
        files := w.fofnLines.map (plannedFilePair idx w),
        events := eventsFor w 0 w.fofnLines }
    ∧ (runModel w).exits = 0 := by
  have hex : extractAlignedReads w.cmpOpen = Except.ok { index := idx, warned := true } := by
    rw [hopen, extract_ok_of_build d idx hbuild, herr]
  have hm := maskAlignedReads_valid w { index := idx, warned := true } hex hv
  refine ⟨hex, hm, ?_⟩
  rw [runModel_of_ok w _ hm]

/-- Witness for C9 at the concrete world `wC9`: the record inserted before
the `IndexError` is kept and drives the masking of hole 1. -/
theorem C9_swallowed_index_error_witness :
    dC9.iterError = true
    ∧ addAllHoles (seedMovies dC9.movieTable) dC9.records = Except.ok idxM1
    ∧ extractAlignedReads wC9.cmpOpen = Except.ok { index := idxM1, warned := true }
    ∧ maskAlignedReads wC9 = Except.ok
      { rcode := 0, warned := true, fofnWrites := [ "out/M.rgn.h5\n" ],
        files := [("out/M.rgn.h5", { scanData := "sd", records := [rHQ10Masked] })],
        events := [Ev.manifestAppend 0 "out/M.rgn.h5", Ev.fileFinalized 0] }
    ∧ (runModel wC9).exits = 0 := by
  have h := C9_swallowed_index_error wC9 dC9 idxM1 rfl rfl rfl (by decide)
  exact ⟨rfl, rfl, h.1, h.2.1, h.2.2⟩

/-- Claim C10.  Two distinct legacy-named inputs declaring the same movie
name get the same planned output path: the manifest lists it twice, and
on disk the second output silently overwrites the first. -/
theorem C10_legacy_collision (w : World) (p1 p2 : String) (ex : ExtractResult)
    (hne : p1 ≠ p2)
    (hlines : w.fofnLines = [p1, p2])
    (hex : extractAlignedReads w.cmpOpen = Except.ok ex)
    (h1 : endsWithRgnH5 p1 = true) (h2 : endsWithRgnH5 p2 = true)
    (hn1 : partSearch (baseName p1).toList = false)
    (hn2 : partSearch (baseName p2).toList = false)
    (hmv : (w.rgnFiles p1).movieName = (w.rgnFiles p2).movieName) :
    plannedPath w p1 = plannedPath w p2
    ∧ (runModel w).fofnWrites = [plannedPath w p1 ++ "\n", plannedPath w p1 ++ "\n"]
    ∧ diskContents (runModel w).files (plannedPath w p1)
      = some (processFile ex.index (w.rgnFiles p2)) := by
  have hpp : plannedPath w p1 = plannedPath w p2 := by
    have hn1d : partSearch (baseName p1).data = false := hn1
    have hn2d : partSearch (baseName p2).data = false := hn2
    simp [plannedPath, planOutputPath, outputStem, hn1d, hn2d, hmv]
  have hv : ∀ p ∈ w.fofnLines, endsWithRgnH5 p = true := by
    rw [hlines]
    intro p hp
    rcases List.mem_cons.mp hp with he | hp2
    · rw [he]
      exact h1
    · rcases List.mem_cons.mp hp2 with he | h3
      · rw [he]
        exact h2
      · exact absurd h3 (List.not_mem_nil p)
  have hm := maskAlignedReads_valid w ex hex hv
  rw [runModel_of_ok w _ hm]
  refine ⟨hpp, ?_, ?_⟩
  · rw [hlines]
    simp [hpp]
  · rw [hlines]
    simp only [List.map_cons, List.map_nil]
    unfold diskContents
    simp [plannedFilePair, hpp]

/-- Witness for C10 at the concrete world `wC10`: both legacy files of
movie `Mv` map to `out/Mv.rgn.h5`, and the surviving disk content is the
second output. -/
theorem C10_legacy_collision_witness :
    plannedPath wC10 "d1/a.rgn.h5" = plannedPath wC10 "d2/b.rgn.h5"
    ∧ (runModel wC10).fofnWrites = [ "out/Mv.rgn.h5\n", "out/Mv.rgn.h5\n" ]
    ∧ diskContents (runModel wC10).files "out/Mv.rgn.h5"
      = some { scanData := "sdB", records := [] } := by
  have h := C10_legacy_collision wC10 "d1/a.rgn.h5" "d2/b.rgn.h5"
    { index := [], warned := false } (by decide) rfl rfl (by decide) (by decide)
    (by decide) (by decide) rfl
  exact ⟨h.1, h.2.1, h.2.2⟩
